import Mathlib

/-!
# Verification of the Monte Carlo path tracer (`Raytracer.cpp`)

This file gives a shallow embedding, in Lean 4, of the core of the ray
tracer found in `grafics II practica 3/RayTracer GFX II/Raytracer.cpp`:
the tone mapper (`ToneMap`), the intersection dispatcher (`Cast`), the
recursive integrator (`Trace`), the shading estimator (`Shade`) with its
Russian-roulette depth-extension loop and its direct-lighting loop, and
the two sampling routines (`SampleProjectedHemisphere`,
`SampleSpecularLobe`).

Modelling conventions:
* C/C++ `float`/`double` values are modelled as real numbers (`ℝ`);
  `int` is modelled as `ℤ`.
* The vector/color classes (`Vec3`, `Color`, `Pixel`) and their operators
  come from headers that are not part of the repository snapshot; they are
  modelled from the spec as the standard componentwise algebra
  (dot product for `Vec3 * Vec3`, componentwise product for
  `Color * Color`, mirror reflection for `Reflection`).
* External collaborators (`Object::Intersect`, `Object::GetSample`) are
  modelled as oracle function fields of `Object`; random number draws
  (`rand(a,b)`) are modelled as explicit oracle arguments.
* The scene's singly-linked object list (`scene.first` / `object->next`)
  is modelled as a `List Object`; the pointer comparison `object != ignore`
  is modelled by comparing the position index in that list.
* The recursion `Trace → Shade → Trace` is not structurally decreasing in
  the depth argument (Russian roulette may increase it), mirroring the
  source where termination holds only with probability 1.  `TraceF` is
  therefore indexed by an explicit fuel; every theorem below is about a
  body of the form `TraceF (fuel+1)`, i.e. about the real body of `Trace`.
-/

noncomputable section

namespace Raytracer

/-- A color: triple of floating-point radiance components, modelled over ℝ.
Default-constructed `Color()` is the zero color. -/
@[ext]
structure Color where
  red : ℝ
  green : ℝ
  blue : ℝ

instance : Zero Color := ⟨⟨0, 0, 0⟩⟩

instance : Add Color := ⟨fun a b => ⟨a.red + b.red, a.green + b.green, a.blue + b.blue⟩⟩

/-- Componentwise color product (`Color * Color` from the missing header). -/
instance : Mul Color := ⟨fun a b => ⟨a.red * b.red, a.green * b.green, a.blue * b.blue⟩⟩

/-- Scalar times color (`float * Color` from the missing header). -/
instance : HMul ℝ Color Color := ⟨fun s c => ⟨s * c.red, s * c.green, s * c.blue⟩⟩

/-- Color times scalar (`Color * float` from the missing header). -/
instance : HMul Color ℝ Color := ⟨fun c s => ⟨c.red * s, c.green * s, c.blue * s⟩⟩

/-- Color divided by scalar (`Color / float` from the missing header). -/
instance : HDiv Color ℝ Color := ⟨fun c s => ⟨c.red / s, c.green / s, c.blue / s⟩⟩

/-- A 3-vector over ℝ (the `Vec3` class of the missing header). -/
@[ext]
structure Vec3 where
  x : ℝ
  y : ℝ
  z : ℝ

instance : Zero Vec3 := ⟨⟨0, 0, 0⟩⟩

instance : Add Vec3 := ⟨fun a b => ⟨a.x + b.x, a.y + b.y, a.z + b.z⟩⟩

instance : Sub Vec3 := ⟨fun a b => ⟨a.x - b.x, a.y - b.y, a.z - b.z⟩⟩

instance : Neg Vec3 := ⟨fun a => ⟨-a.x, -a.y, -a.z⟩⟩

/-- Dot product (`Vec3 * Vec3 → float`, as used in `N*L`, `R*V`). -/
instance : HMul Vec3 Vec3 ℝ := ⟨fun a b => a.x * b.x + a.y * b.y + a.z * b.z⟩

/-- Scalar times vector (`float * Vec3`). -/
instance : HMul ℝ Vec3 Vec3 := ⟨fun s a => ⟨s * a.x, s * a.y, s * a.z⟩⟩

/-- Vector times scalar (`Vec3 * float`). -/
instance : HMul Vec3 ℝ Vec3 := ⟨fun a s => ⟨a.x * s, a.y * s, a.z * s⟩⟩

/-- Vector divided by scalar (`Vec3 / float`). -/
instance : HDiv Vec3 ℝ Vec3 := ⟨fun a s => ⟨a.x / s, a.y / s, a.z / s⟩⟩

/-- Euclidean length (`Length` from the missing header). -/
def Length (a : Vec3) : ℝ := Real.sqrt (a * a)

/-- Normalization (`Unit` from the missing header): the vector divided by
its length. -/
def Unit (a : Vec3) : Vec3 := a / Length a

/-- Modelled from the spec: `Reflection` from the missing vector header,
the mirror image of `A` across the plane orthogonal to `M` (the standard
ray-tracing reflection `A - 2(A·M)M`); the spec describes the frame
change in `SampleProjectedHemisphere` as "a reflection about the half-vector
between the local up and N". -/
def Reflection (A M : Vec3) : Vec3 := A - (2 * (A * M)) * M

/-- The constant `Pi` of the source. -/
def Pi : ℝ := Real.pi

/-- The self-intersection offset `Epsilon` of the missing header.  Its exact
value is irrelevant to every claim below; any positive constant works. -/
def Epsilon : ℝ := 1 / 1000000

/-- The `Infinity` used to initialize hit distances (IEEE +∞ in the source);
modelled as a real constant strictly above every representable double.  No
theorem below depends on its value. -/
def Infinity : ℝ := 2 ^ 1024

/-- A material (fields of the missing `Material` class that the source
reads): the `Emitter()` capability flag, diffuse, specular and emission
colors, and the Phong exponent. -/
structure Material where
  isEmitter : Bool
  m_Diffuse : Color
  m_Specular : Color
  m_Emission : Color
  m_Phong_exp : ℝ

/-- A default-constructed `Material` (used only for hit records whose
material has not yet been written; no theorem reads its fields). -/
def defaultMaterial : Material := ⟨false, 0, 0, 0, 0⟩

/-- The geometric part of a hit record (`HitGeom`): distance along the ray,
hit point, surface normal, and the ray origin recorded by the intersector. -/
structure HitGeom where
  distance : ℝ
  point : Vec3
  normal : Vec3
  origin : Vec3

/-- A hit record (`HitInfo`): geometry plus the material of the closest
surface found so far. -/
structure HitInfo where
  geom : HitGeom
  material : Material

/-- A ray: origin, direction and the `no_emitters` flag suppressing direct
emitter hits. -/
structure Ray where
  origin : Vec3
  direction : Vec3
  no_emitters : Bool

/-- A sample: a direction/point `P` together with an importance weight `w`. -/
structure Sample where
  P : Vec3
  w : ℝ

/-- A scene object.  `Intersect` and `GetSample` are external collaborators
(defined outside the repository snapshot) and are modelled as oracle fields:
`intersect` returns the boolean result together with the possibly-updated
`HitGeom` (the C++ version mutates it through a reference). -/
structure Object where
  material : Material
  intersect : Ray → HitGeom → Bool × HitGeom
  getSample : Vec3 → Vec3 → Sample

/-- A scene: the object list (`scene.first` / `->next` linked list) and the
background color `scene.bgcolor`. -/
structure Scene where
  objects : List Object
  bgcolor : Color

/-- An output pixel; the `channel` type is an unsigned byte (the image is
drawn with `GL_UNSIGNED_BYTE` in `Raytracer::draw`), so each field is the
byte value as an integer in `[0, 255]`. -/
structure Pixel where
  r : ℤ
  g : ℤ
  b : ℤ

/-- `Raytracer::ToneMap` (Raytracer.cpp lines 84-93): floor of 256 times
each channel, saturate at 255 from above, then cast to the unsigned byte
`channel` type — modelled as `% 256` (`Int.emod`, which is the value of a
C++ integer-to-unsigned-byte conversion). -/
def ToneMap (color : Color) : Pixel :=
  let red : ℤ := ⌊256 * color.red⌋
  let green : ℤ := ⌊256 * color.green⌋
  let blue : ℤ := ⌊256 * color.blue⌋
  let r : ℤ := (if 255 ≤ red then 255 else red) % 256
  let g : ℤ := (if 255 ≤ green then 255 else green) % 256
  let b : ℤ := (if 255 ≤ blue then 255 else blue) % 256
  ⟨r, g, b⟩

/-- The Russian-roulette depth-extension loop of `Raytracer::Shade`
(Raytracer.cpp lines 180-193).  `draws i` is the value of the `i`-th call
`rand(0, 99)`; `posi` is the running probability counter (initially 100),
`num_reb` the extended depth (initially `max_tree_depth`).  A draw above
`posi` sets `posi = -1` and re-tests the loop condition (the `continue`);
otherwise `num_reb` is incremented and `posi` decreased by 15.  The loop
guard `russian` is the constant `true` in the source. -/
def rrLoop (draws : ℕ → ℝ) (i : ℕ) (posi : ℝ) (num_reb : ℤ) : ℤ :=
  if h : 0 ≤ posi then
    if draws i > posi then rrLoop draws (i + 1) (-1) num_reb
    else rrLoop draws (i + 1) (posi - 15) (num_reb + 1)
  else num_reb
termination_by (⌊posi⌋ + 1).toNat
decreasing_by
· have h0 : (0 : ℤ) ≤ ⌊posi⌋ := Int.floor_nonneg.mpr h
  have h1 : ⌊(-1 : ℝ)⌋ = (-1 : ℤ) := by norm_num
  omega
· have h0 : (0 : ℤ) ≤ ⌊posi⌋ := Int.floor_nonneg.mpr h
  have h1 : ⌊posi - (15 : ℝ)⌋ = ⌊posi⌋ - 15 := by
    have := Int.floor_sub_int posi (15 : ℤ)
    push_cast at this
    exact this
  omega

/-- The number of executions of the body of the Russian-roulette loop of
`Raytracer::Shade` (same control flow as `rrLoop`, counting iterations). -/
def rrCount (draws : ℕ → ℝ) (i : ℕ) (posi : ℝ) : ℕ :=
  if h : 0 ≤ posi then
    if draws i > posi then rrCount draws (i + 1) (-1) + 1
    else rrCount draws (i + 1) (posi - 15) + 1
  else 0
termination_by (⌊posi⌋ + 1).toNat
decreasing_by
· have h0 : (0 : ℤ) ≤ ⌊posi⌋ := Int.floor_nonneg.mpr h
  have h1 : ⌊(-1 : ℝ)⌋ = (-1 : ℤ) := by norm_num
  omega
· have h0 : (0 : ℤ) ≤ ⌊posi⌋ := Int.floor_nonneg.mpr h
  have h1 : ⌊posi - (15 : ℝ)⌋ = ⌊posi⌋ - 15 := by
    have := Int.floor_sub_int posi (15 : ℤ)
    push_cast at this
    exact this
  omega

/-- The loop of `Raytracer::Cast` (Raytracer.cpp lines 147-154), walking the
object list.  `i` is the position of the current object in the scene list
(the pointer identity used by `object != ignore`), `hit` the running flag
(`int hit = false`), `hitinfo` the running record.  When the object is not
the ignored one, its `Intersect` runs on `hitinfo.geom` (possibly updating
it); only on a `true` result are the material copied and the flag set. -/
def castList (ray : Ray) (ign : Option ℕ) :
    List Object → ℕ → Bool → HitInfo → Bool × HitInfo
  | [], _, hit, hitinfo => (hit, hitinfo)
  | o :: rest, i, hit, hitinfo =>
    if some i ≠ ign then
      match o.intersect ray hitinfo.geom with
      | (true, g) => castList ray ign rest (i + 1) true ⟨g, o.material⟩
      | (false, g) => castList ray ign rest (i + 1) hit ⟨g, hitinfo.material⟩
    else castList ray ign rest (i + 1) hit hitinfo

/-- `Raytracer::Cast` (Raytracer.cpp lines 136-156): scan the scene list for
the closest intersection, returning the hit flag and the updated record. -/
def Cast (ray : Ray) (scene : Scene) (hitinfo : HitInfo) (ignore : Option ℕ) :
    Bool × HitInfo :=
  castList ray ignore scene.objects 0 false hitinfo

/-- `Raytracer::SampleProjectedHemisphere` (Raytracer.cpp lines 277-303).
`s_rand` and `t_rand` are the two `rand(0.0, 1.0)` draws.  The sample is
built in tangent space (z up), its z-component clamped to be nonnegative,
then mapped into the frame of `N` by reflecting `-aux` about the half
vector between `(0,0,1)` and `N`; the weight is `Pi`. -/
def SampleProjectedHemisphere (N : Vec3) (s_rand t_rand : ℝ) : Sample :=
  let v : Vec3 := ⟨0, 0, 1⟩
  let ax : ℝ := Real.sqrt t_rand * Real.cos (2 * Pi * s_rand)
  let ay : ℝ := Real.sqrt t_rand * Real.sin (2 * Pi * s_rand)
  let az0 : ℝ := 1 - ax ^ 2 - ay ^ 2
  let az : ℝ := if az0 > 0 then Real.sqrt az0 else 0
  let aux : Vec3 := ⟨ax, ay, az⟩
  let aux_mig : Vec3 := Unit (v + N)
  { P := Reflection (-aux) aux_mig, w := Pi }

/-- `Raytracer::SampleSpecularLobe` (Raytracer.cpp lines 309-342).  `s` and
`t` are the two `rand(0.0, 1.0)` draws; the lobe is built in tangent space
around z and reflected into the frame of `R`; the weight is
`2π / (phong_exp + 2)`. -/
def SampleSpecularLobe (R : Vec3) (phong_exp : ℝ) (s t : ℝ) : Sample :=
  let v : Vec3 := ⟨0, 0, 1⟩
  let e : ℝ := 2 / (phong_exp + 1)
  let spri : ℝ := Real.sqrt (1 - s ^ e)
  let px : ℝ := spri * Real.cos (2 * Pi * t)
  let py : ℝ := spri * Real.sin (2 * Pi * t)
  let pz : ℝ := Real.sqrt (1 - px ^ 2 - py ^ 2)
  let aux_mig : Vec3 := (v + R) / Length (v + R)
  { P := Reflection (-(⟨px, py, pz⟩ : Vec3)) aux_mig
    w := (2 * Pi) / (phong_exp + 2) }

/-- The primary rays of `Raytracer::cast_line` (Raytracer.cpp lines 30-34,
49, 57): origin the camera eye, `no_emitters = false`, direction computed
per pixel/sample (abstracted here as an argument). -/
def primaryRay (eye direction : Vec3) : Ray :=
  { origin := eye, direction := direction, no_emitters := false }

/-- The diffuse indirect bounce ray `rayo` of `Raytracer::Shade`
(Raytracer.cpp lines 243-246). -/
def rayoOf (hit : HitInfo) (N : Vec3) (S1 : Sample) : Ray :=
  { origin := hit.geom.point + N * Epsilon
    direction := S1.P
    no_emitters := false }

/-- The specular indirect bounce ray `rayo1` of `Raytracer::Shade`
(Raytracer.cpp lines 256-261). -/
def rayo1Of (hit : HitInfo) (N : Vec3) (S2 : Sample) : Ray :=
  { origin := hit.geom.point + Epsilon * N
    direction := S2.P
    no_emitters := false }

/-- The specular indirect term of `Raytracer::Shade` (Raytracer.cpp lines
252-263).  `indirect_spec` is default-initialized to `Color()` and assigned
only under the guard
`(hit.material.m_Phong_exp > 0) && (contriD <= u < (contriD + contriS))`;
the C++ chained comparison parses as
`(contriD <= u) < (contriD + contriS)` with the boolean promoted to a
float `1.0` or `0.0`, which is how it is modelled here.  `traceFn` stands
for the recursive call `Trace(rayo1, scene, num_reb)`. -/
def indirectSpecOf (hit : HitInfo) (V N : Vec3) (num_reb : ℤ)
    (u contriD contriS : ℝ) (s2 t2 : ℝ) (traceFn : Ray → ℤ → Color) : Color :=
  if hit.material.m_Phong_exp > 0 ∧
      (if contriD ≤ u then (1 : ℝ) else 0) < contriD + contriS then
    let ref : Vec3 := Reflection V N
    let S2 : Sample := SampleSpecularLobe ref hit.material.m_Phong_exp s2 t2
    let rayo1 : Ray := rayo1Of hit N S2
    S2.w * hit.material.m_Specular *
      ((hit.material.m_Phong_exp + 2) / (2 * Pi)) * traceFn rayo1 num_reb
  else 0

/-- The direct-lighting loop of `Raytracer::Shade` (Raytracer.cpp lines
201-239).  The loop walks the scene list (with position index `i`, used as
the `ignore` argument of the shadow `Cast`); `diffuse` and `specular` are
the function-scope locals declared at lines 173-174 and are threaded
through the iterations exactly as in the source: `diffuse` is reassigned
on every unoccluded emitter, while `specular` is reassigned only when
`RV > 0 && m_Phong_exp > 0` and otherwise keeps its previous value.
`direct` is the running accumulator; the final value of `direct` is
returned.  `cdirect` is the constant `true` local of line 176. -/
def directLoop (hit : HitInfo) (scene : Scene) (shadows0 : Ray) (V N : Vec3)
    (cdirect : Bool) :
    List Object → ℕ → Color → Color → Color → Color
  | [], _, _, _, direct => direct
  | o :: rest, i, diffuse, specular, direct =>
    if o.material.isEmitter = true ∧ cdirect = true then
      let S : Sample := o.getSample hit.geom.point hit.geom.normal
      let shadows : Ray := { shadows0 with direction := Unit (S.P - hit.geom.point) }
      let vacio : HitInfo :=
        ⟨⟨Length (S.P - hit.geom.point), 0, 0, 0⟩, defaultMaterial⟩
      if (Cast shadows scene vacio (some i)).1 = true then
        directLoop hit scene shadows0 V N cdirect rest (i + 1) diffuse specular direct
      else
        let L : Vec3 := Unit (S.P - hit.geom.point)
        let R : Vec3 := Reflection L N
        let NL0 : ℝ := N * L
        let NL : ℝ := if NL0 < 0 then 0 else NL0
        let diffuse2 : Color := NL * hit.material.m_Diffuse
        let RV : ℝ := R * V
        let specular2 : Color :=
          if RV > 0 ∧ hit.material.m_Phong_exp > 0 then
            (RV ^ hit.material.m_Phong_exp) * hit.material.m_Specular
          else specular
        let irradiance : Color := S.w * o.material.m_Emission
        directLoop hit scene shadows0 V N cdirect rest (i + 1) diffuse2 specular2
          (direct + (diffuse2 + specular2) * irradiance)
    else directLoop hit scene shadows0 V N cdirect rest (i + 1) diffuse specular direct

/-- The bundle of random draws consumed by one call of `Raytracer::Shade`:
the roulette draws `rand(0, 99)` (`rr`), the lobe-selection draw
`rand(0, 1)` (`u`), and the two draws of each sampling routine. -/
structure Rand where
  rr : ℕ → ℝ
  u : ℝ
  s1 : ℝ
  t1 : ℝ
  s2 : ℝ
  t2 : ℝ

/-- `Raytracer::Shade` (Raytracer.cpp lines 158-271).  `rnd` bundles the
random draws of this call and `traceFn` stands for the recursive calls
`Trace(·, scene, num_reb)`.  An emitter material returns its `m_Diffuse`
immediately (line 162).  Otherwise: roulette-extended depth `num_reb`,
direct lighting over the scene list, and the probabilistically selected
indirect diffuse/specular bounces. -/
def Shade (hit : HitInfo) (scene : Scene) (max_tree_depth : ℤ) (rnd : Rand)
    (traceFn : Ray → ℤ → Color) : Color :=
  if hit.material.isEmitter = true then hit.material.m_Diffuse
  else
    let N : Vec3 := hit.geom.normal
    let shadows0 : Ray :=
      { origin := hit.geom.point + N * Epsilon, direction := 0, no_emitters := false }
    let num_reb : ℤ := rrLoop rnd.rr 0 100 max_tree_depth
    let u : ℝ := rnd.u
    let contriS : ℝ := (hit.material.m_Specular.blue + hit.material.m_Specular.red +
      hit.material.m_Specular.green) / 3
    let contriD : ℝ := (hit.material.m_Diffuse.blue + hit.material.m_Diffuse.red +
      hit.material.m_Diffuse.green) / 3
    let V : Vec3 := Unit (hit.geom.point - hit.geom.origin)
    let direct : Color := directLoop hit scene shadows0 V N true scene.objects 0 0 0 0
    let indirect : Color :=
      if contriD + contriS > u then
        let S1 : Sample := SampleProjectedHemisphere N rnd.s1 rnd.t1
        let rayo : Ray := rayoOf hit N S1
        let indirect_diff : Color :=
          if u < contriD then S1.w * hit.material.m_Diffuse / Pi * traceFn rayo num_reb
          else 0
        let indirect_spec : Color :=
          indirectSpecOf hit V N num_reb u contriD contriS rnd.s2 rnd.t2 traceFn
        indirect_diff + indirect_spec
      else 0
    direct + indirect

/-- The hit record as initialized by `Raytracer::Trace` (Raytracer.cpp
lines 104-107): a default-constructed `HitInfo` whose `geom.distance` is
set to `Infinity`. -/
def initialHitInfo : HitInfo := ⟨⟨Infinity, 0, 0, 0⟩, defaultMaterial⟩

/-- `Raytracer::Trace` (Raytracer.cpp lines 101-130), with an explicit
`fuel` bounding the recursion tree (the source recursion terminates only
with probability 1, so it has no structural measure; every theorem about
`TraceF` concerns a `fuel + 1` unfolding, i.e. the genuine body).  `rnds n`
supplies the random draws of the `n`-th nested `Shade` call along the
current chain.  The body: cast the ray against the scene; on a hit within
the depth budget, either suppress an emitter hit when `no_emitters` is set
(returning `Color()`), or shade the hit with depth `max_tree_depth - 1`;
otherwise return the scene background color. -/
def TraceF : ℕ → (ℕ → Rand) → Ray → Scene → ℤ → Color
  | 0, _, _, scene, _ => scene.bgcolor
  | fuel + 1, rnds, ray, scene, max_tree_depth =>
    let c := Cast ray scene initialHitInfo none
    if c.1 = true ∧ max_tree_depth > -1 then
      if c.2.material.isEmitter = true ∧ ray.no_emitters = true then 0
      else Shade c.2 scene (max_tree_depth - 1) (rnds 0)
        (fun r d => TraceF fuel (fun n => rnds (n + 1)) r scene d)
    else scene.bgcolor

/-! ### Concrete instances

Closed scenes, materials and random bundles used by the witness and
counterexample theorems below.  The `intersect` and `getSample` oracles are
chosen concrete collaborators satisfying the contracts the theorems assume. -/

/-- A concrete emitter material with distinct diffuse (red) and emission
(green) colors. -/
def matE : Material := ⟨true, ⟨1, 0, 0⟩, 0, ⟨0, 1, 0⟩, 0⟩

/-- A concrete object whose intersector always reports a hit at distance 1. -/
def objE : Object := ⟨matE, fun _ _ => (true, ⟨1, 0, 0, 0⟩), fun _ _ => ⟨0, 0⟩⟩

/-- A one-object scene around `objE`, with a blue background. -/
def sceneE : Scene := ⟨[objE], ⟨0, 0, 1⟩⟩

/-- A concrete random bundle (all draws zero). -/
def rand0 : Rand := ⟨fun _ => 0, 0, 0, 0, 0, 0⟩

/-- A constant stream of random bundles. -/
def rnds0 : ℕ → Rand := fun _ => rand0

/-- A concrete primary-style ray (`no_emitters = false`). -/
def rayW : Ray := ⟨0, 0, false⟩

/-- A concrete object whose intersector never reports a hit and never
writes the record (it satisfies the closest-hit contract vacuously). -/
def objN : Object := ⟨defaultMaterial, fun _ g => (false, g), fun _ _ => ⟨0, 0⟩⟩

/-- A one-object scene around `objN`. -/
def sceneN : Scene := ⟨[objN], 0⟩

/-- The hit surface for the direct-lighting evaluation: point at the
origin, normal `(0,0,1)`, ray origin `(0,0,1)` (the eye looks straight
down), material non-emitting with zero diffuse, white specular and Phong
exponent 1. -/
def hit3 : HitInfo := ⟨⟨1, ⟨0, 0, 0⟩, ⟨0, 0, 1⟩, ⟨0, 0, 1⟩⟩, ⟨false, 0, ⟨1, 1, 1⟩, 0, 1⟩⟩

/-- A white emitter material. -/
def matL : Material := ⟨true, 0, 0, ⟨1, 1, 1⟩, 0⟩

/-- First emitter: sampled point straight above the hit point (`(0,0,1)`,
weight 1); its intersector never occludes anything. -/
def emitter1 : Object := ⟨matL, fun _ g => (false, g), fun _ _ => ⟨⟨0, 0, 1⟩, 1⟩⟩

/-- Second emitter: sampled point to the side (`(1,0,0)`, weight 1), so its
reflected direction satisfies `R·V = 0`; its intersector never occludes. -/
def emitter2 : Object := ⟨matL, fun _ g => (false, g), fun _ _ => ⟨⟨1, 0, 0⟩, 1⟩⟩

/-- The two-emitter scene for the direct-lighting evaluation. -/
def scene3 : Scene := ⟨[emitter1, emitter2], 0⟩

/-- The normal the shading loop uses for `hit3`. -/
def N3 : Vec3 := hit3.geom.normal

/-- The view vector `V = Unit(hit point - ray origin)` for `hit3`. -/
def V3 : Vec3 := Unit (hit3.geom.point - hit3.geom.origin)

/-- The shadow-ray template (`shadows` of Raytracer.cpp lines 165-167)
for `hit3`. -/
def shadows3 : Ray := ⟨hit3.geom.point + N3 * Epsilon, 0, false⟩

/-! ### Componentwise algebra lemmas

Unfolding lemmas for the modelled vector/color operators, used by the
proofs below. -/

theorem vec_add_def (a b : Vec3) : a + b = ⟨a.x + b.x, a.y + b.y, a.z + b.z⟩ := rfl

theorem vec_sub_def (a b : Vec3) : a - b = ⟨a.x - b.x, a.y - b.y, a.z - b.z⟩ := rfl

theorem vec_neg_def (a : Vec3) : -a = ⟨-a.x, -a.y, -a.z⟩ := rfl

theorem vec_dot_def (a b : Vec3) : a * b = a.x * b.x + a.y * b.y + a.z * b.z := rfl

theorem vec_smul_def (s : ℝ) (a : Vec3) : s * a = ⟨s * a.x, s * a.y, s * a.z⟩ := rfl

theorem vec_muls_def (a : Vec3) (s : ℝ) : a * s = ⟨a.x * s, a.y * s, a.z * s⟩ := rfl

theorem vec_div_def (a : Vec3) (s : ℝ) : a / s = ⟨a.x / s, a.y / s, a.z / s⟩ := rfl

theorem vec_zero_def : (0 : Vec3) = ⟨0, 0, 0⟩ := rfl

theorem color_add_def (a b : Color) :
    a + b = ⟨a.red + b.red, a.green + b.green, a.blue + b.blue⟩ := rfl

theorem color_mul_def (a b : Color) :
    a * b = ⟨a.red * b.red, a.green * b.green, a.blue * b.blue⟩ := rfl

theorem color_smul_def (s : ℝ) (c : Color) :
    s * c = ⟨s * c.red, s * c.green, s * c.blue⟩ := rfl

theorem color_muls_def (c : Color) (s : ℝ) :
    c * s = ⟨c.red * s, c.green * s, c.blue * s⟩ := rfl

theorem color_div_def (c : Color) (s : ℝ) :
    c / s = ⟨c.red / s, c.green / s, c.blue / s⟩ := rfl

theorem color_zero_def : (0 : Color) = ⟨0, 0, 0⟩ := rfl

theorem vec_x_zero : (0 : Vec3).x = 0 := rfl

theorem vec_y_zero : (0 : Vec3).y = 0 := rfl

theorem vec_z_zero : (0 : Vec3).z = 0 := rfl

theorem color_red_zero : (0 : Color).red = 0 := rfl

theorem color_green_zero : (0 : Color).green = 0 := rfl

theorem color_blue_zero : (0 : Color).blue = 0 := rfl

theorem dot_comm (a b : Vec3) : a * b = b * a := by
  simp only [vec_dot_def]; ring

theorem dot_neg_left (a b : Vec3) : (-a) * b = -(a * b) := by
  simp only [vec_neg_def, vec_dot_def]; ring

theorem dot_add_left (a b c : Vec3) : (a + b) * c = a * c + b * c := by
  simp only [vec_add_def, vec_dot_def]; ring

theorem dot_self_nonneg (a : Vec3) : (0 : ℝ) ≤ a * a := by
  simp only [vec_dot_def]
  nlinarith [mul_self_nonneg a.x, mul_self_nonneg a.y, mul_self_nonneg a.z]

theorem dot_self_pos (a : Vec3) (h : a ≠ 0) : (0 : ℝ) < a * a := by
  rcases lt_or_eq_of_le (dot_self_nonneg a) with hlt | heq
  · exact hlt
  · exfalso
    apply h
    simp only [vec_dot_def] at heq
    have hx : a.x * a.x = 0 := by nlinarith [mul_self_nonneg a.x, mul_self_nonneg a.y, mul_self_nonneg a.z, heq.symm]
    have hy : a.y * a.y = 0 := by nlinarith [mul_self_nonneg a.x, mul_self_nonneg a.y, mul_self_nonneg a.z, heq.symm]
    have hz : a.z * a.z = 0 := by nlinarith [mul_self_nonneg a.x, mul_self_nonneg a.y, mul_self_nonneg a.z, heq.symm]
    have : a = ⟨0, 0, 0⟩ := by
      ext
      · exact mul_self_eq_zero.mp hx
      · exact mul_self_eq_zero.mp hy
      · exact mul_self_eq_zero.mp hz
    rw [this, vec_zero_def]

theorem reflection_dot (a m n : Vec3) :
    Reflection a m * n = a * n - 2 * (a * m) * (m * n) := by
  simp only [Reflection, vec_sub_def, vec_smul_def, vec_dot_def]; ring

theorem unit_dot (w u : Vec3) : Unit w * u = (w * u) / Length w := by
  simp only [Unit, vec_div_def, vec_dot_def]; ring

/-! ### Russian-roulette loop lemmas -/

theorem rrLoop_neg (draws : ℕ → ℝ) (i : ℕ) (posi : ℝ) (n : ℤ) (h : posi < 0) :
    rrLoop draws i posi n = n := by
  rw [rrLoop, dif_neg (by linarith : ¬0 ≤ posi)]

theorem rrCount_neg (draws : ℕ → ℝ) (i : ℕ) (posi : ℝ) (h : posi < 0) :
    rrCount draws i posi = 0 := by
  rw [rrCount, dif_neg (by linarith : ¬0 ≤ posi)]

theorem rrLoop_ge (draws : ℕ → ℝ) :
    ∀ (k : ℕ) (i : ℕ) (posi : ℝ) (n : ℤ), posi < 15 * k → n ≤ rrLoop draws i posi n := by
  intro k
  induction k with
  | zero =>
    intro i posi n h
    rw [rrLoop_neg draws i posi n (by simpa using h)]
  | succ k ih =>
    intro i posi n h
    by_cases h0 : 0 ≤ posi
    · rw [rrLoop, dif_pos h0]
      by_cases hd : draws i > posi
      · rw [if_pos hd, rrLoop_neg draws (i + 1) (-1) n (by norm_num)]
      · rw [if_neg hd]
        have hk : posi - 15 < 15 * k := by push_cast at h ⊢; linarith
        have := ih (i + 1) (posi - 15) (n + 1) hk
        omega
    · rw [rrLoop_neg draws i posi n (by linarith)]

theorem rrLoop_le (draws : ℕ → ℝ) :
    ∀ (k : ℕ) (i : ℕ) (posi : ℝ) (n : ℤ), posi < 15 * k →
      rrLoop draws i posi n ≤ n + k := by
  intro k
  induction k with
  | zero =>
    intro i posi n h
    rw [rrLoop_neg draws i posi n (by simpa using h)]
    omega
  | succ k ih =>
    intro i posi n h
    by_cases h0 : 0 ≤ posi
    · rw [rrLoop, dif_pos h0]
      by_cases hd : draws i > posi
      · rw [if_pos hd, rrLoop_neg draws (i + 1) (-1) n (by norm_num)]
        omega
      · rw [if_neg hd]
        have hk : posi - 15 < 15 * k := by push_cast at h ⊢; linarith
        have := ih (i + 1) (posi - 15) (n + 1) hk
        push_cast at this ⊢
        omega
    · rw [rrLoop_neg draws i posi n (by linarith)]
      omega

theorem rrCount_le (draws : ℕ → ℝ) :
    ∀ (k : ℕ) (i : ℕ) (posi : ℝ), posi < 15 * k → rrCount draws i posi ≤ k := by
  intro k
  induction k with
  | zero =>
    intro i posi h
    rw [rrCount_neg draws i posi (by simpa using h)]
  | succ k ih =>
    intro i posi h
    by_cases h0 : 0 ≤ posi
    · rw [rrCount, dif_pos h0]
      by_cases hd : draws i > posi
      · rw [if_pos hd, rrCount_neg draws (i + 1) (-1) (by norm_num)]
        omega
      · rw [if_neg hd]
        have hk : posi - 15 < 15 * k := by push_cast at h ⊢; linarith
        have := ih (i + 1) (posi - 15) hk
        omega
    · rw [rrCount_neg draws i posi (by linarith)]
      omega

/-! ### Claim theorems -/

/-- C5: the Russian-roulette extension loop of `Shade`, started as in the
source (`posi = 100`, `num_reb = max_tree_depth`), terminates in finitely
many iterations — in fact in at most 7 body executions, for every sequence
of draws, a deterministic bound stronger than the claimed
probability-1 termination — and the resulting extended depth `num_reb`
never drops below the input depth. -/
theorem roulette_terminates_never_decreases (draws : ℕ → ℝ) (d : ℤ) :
    rrCount draws 0 100 ≤ 7 ∧ d ≤ rrLoop draws 0 100 d :=
  ⟨rrCount_le draws 7 0 100 (by norm_num),
   rrLoop_ge draws 7 0 100 d (by norm_num)⟩

/-- C9: with every draw in `[0, 99]`, the Russian-roulette loop terminates
within 8 iterations deterministically, the first draw always extends
(`alpha ≤ 99 < 100 = posi`, so the first iteration increments `num_reb`
and drops `posi` to 85), and the final `num_reb` lies in
`[d + 1, d + 7]`. -/
theorem roulette_deterministic_bounds (draws : ℕ → ℝ) (d : ℤ)
    (hdraws : ∀ i, 0 ≤ draws i ∧ draws i ≤ 99) :
    rrCount draws 0 100 ≤ 8 ∧
    rrLoop draws 0 100 d = rrLoop draws 1 85 (d + 1) ∧
    d + 1 ≤ rrLoop draws 0 100 d ∧ rrLoop draws 0 100 d ≤ d + 7 := by
  have hfirst : rrLoop draws 0 100 d = rrLoop draws 1 85 (d + 1) := by
    rw [rrLoop, dif_pos (by norm_num : (0 : ℝ) ≤ 100)]
    rw [if_neg (by have := (hdraws 0).2; push_neg; linarith)]
    norm_num
  refine ⟨le_trans (rrCount_le draws 7 0 100 (by norm_num)) (by norm_num),
    hfirst, ?_, ?_⟩
  · rw [hfirst]
    exact rrLoop_ge draws 6 1 85 (d + 1) (by norm_num)
  · rw [hfirst]
    have := rrLoop_le draws 6 1 85 (d + 1) (by norm_num)
    push_cast at this
    omega

/-- Witness for C9 at the constant draw 50 and input depth 0. -/
theorem roulette_deterministic_bounds_witness :
    rrCount (fun _ => 50) 0 100 ≤ 8 ∧
    rrLoop (fun _ => 50) 0 100 0 = rrLoop (fun _ => 50) 1 85 (0 + 1) ∧
    (0 : ℤ) + 1 ≤ rrLoop (fun _ => 50) 0 100 0 ∧
    rrLoop (fun _ => 50) 0 100 0 ≤ 0 + 7 :=
  roulette_deterministic_bounds (fun _ => 50) 0 (fun _ => ⟨by norm_num, by norm_num⟩)

/-- C2: `Trace` returns the scene background color whenever `Cast` reports
no hit or the depth argument is negative (`max_tree_depth > -1` fails),
whatever the scene, the ray and the random draws. -/
theorem trace_background (fuel : ℕ) (rnds : ℕ → Rand) (ray : Ray) (scene : Scene)
    (d : ℤ) (h : (Cast ray scene initialHitInfo none).1 = false ∨ d < 0) :
    TraceF fuel rnds ray scene d = scene.bgcolor := by
  cases fuel with
  | zero => rfl
  | succ fuel =>
    simp only [TraceF]
    rw [if_neg]
    rintro ⟨h1, h2⟩
    rcases h with h | h
    · rw [h1] at h; exact absurd h (by simp)
    · omega

/-- Witness for C2: a depth of `-1` yields the background color even
though the ray hits `objE` (whose intersector always reports a hit). -/
theorem trace_background_witness :
    TraceF 1 rnds0 rayW sceneE (-1) = sceneE.bgcolor :=
  trace_background 1 rnds0 rayW sceneE (-1) (Or.inr (by norm_num))

/-- C1 counterexample: a ray with `no_emitters = false` whose closest hit
is the emitter `matE` makes `Trace` return `matE`'s diffuse color
`(1,0,0)`, which differs from its emission color `(0,1,0)` — refuting the
claim that the emission color is returned. -/
theorem trace_emitter_counterexample :
    TraceF 1 rnds0 rayW sceneE 0 = matE.m_Diffuse ∧
    TraceF 1 rnds0 rayW sceneE 0 ≠ matE.m_Emission := by
  have hval : TraceF 1 rnds0 rayW sceneE 0 = matE.m_Diffuse := by
    simp [TraceF, Cast, castList, sceneE, objE, rayW, Shade, matE]
  refine ⟨hval, ?_⟩
  rw [hval]
  simp [matE, Color.mk.injEq]

/-- C1 (amended): for every ray with `no_emitters = false` whose closest
hit (as computed by `Cast` from the `Infinity`-initialized record) is an
emitter material, and every nonnegative depth, `Trace` returns exactly
that material's **diffuse** color `m_Diffuse` (Raytracer.cpp line 162) —
not its emission color. -/
theorem trace_emitter_hit_returns_diffuse (fuel : ℕ) (rnds : ℕ → Rand) (ray : Ray)
    (scene : Scene) (d : ℤ) (hray : ray.no_emitters = false) (hd : 0 ≤ d)
    (hhit : (Cast ray scene initialHitInfo none).1 = true)
    (hem : (Cast ray scene initialHitInfo none).2.material.isEmitter = true) :
    TraceF (fuel + 1) rnds ray scene d =
      (Cast ray scene initialHitInfo none).2.material.m_Diffuse := by
  simp only [TraceF]
  rw [if_pos ⟨hhit, by omega⟩]
  rw [if_neg (by rw [hray]; simp)]
  rw [Shade, if_pos hem]

/-- Witness for C1 (amended) on the concrete emitter scene `sceneE`. -/
theorem trace_emitter_hit_returns_diffuse_witness :
    TraceF 1 rnds0 rayW sceneE 0 =
      (Cast rayW sceneE initialHitInfo none).2.material.m_Diffuse :=
  trace_emitter_hit_returns_diffuse 0 rnds0 rayW sceneE 0 rfl (by norm_num)
    (by simp [Cast, castList, sceneE, objE])
    (by simp [Cast, castList, sceneE, objE, matE])

/-- C10: every ray this program passes to `Trace` — the primary rays of
`cast_line` and the two indirect bounce rays `rayo`, `rayo1` of `Shade` —
has `no_emitters = false`; consequently, for any such ray the body of
`Trace` never takes the emitter-suppression branch returning black: it is
equal to the same body with that branch removed. -/
theorem rays_no_emitters_false_suppression_dead :
    (∀ eye direction, (primaryRay eye direction).no_emitters = false) ∧
    (∀ hit N S1, (rayoOf hit N S1).no_emitters = false) ∧
    (∀ hit N S2, (rayo1Of hit N S2).no_emitters = false) ∧
    ∀ (fuel : ℕ) (rnds : ℕ → Rand) (ray : Ray) (scene : Scene) (d : ℤ),
      ray.no_emitters = false →
      TraceF (fuel + 1) rnds ray scene d =
        (if (Cast ray scene initialHitInfo none).1 = true ∧ d > -1 then
          Shade (Cast ray scene initialHitInfo none).2 scene (d - 1) (rnds 0)
            (fun r e => TraceF fuel (fun n => rnds (n + 1)) r scene e)
        else scene.bgcolor) := by
  refine ⟨fun _ _ => rfl, fun _ _ _ => rfl, fun _ _ _ => rfl, ?_⟩
  intro fuel rnds ray scene d hray
  simp only [TraceF, hray]
  simp

/-- Witness for C10 on a concrete ray and scene. -/
theorem rays_no_emitters_false_suppression_dead_witness :
    TraceF 1 rnds0 rayW sceneE 5 =
      (if (Cast rayW sceneE initialHitInfo none).1 = true ∧ (5 : ℤ) > -1 then
        Shade (Cast rayW sceneE initialHitInfo none).2 sceneE (5 - 1) (rnds0 0)
          (fun r e => TraceF 0 (fun n => rnds0 (n + 1)) r sceneE e)
      else sceneE.bgcolor) :=
  rays_no_emitters_false_suppression_dead.2.2.2 0 rnds0 rayW sceneE 5 rfl

/-- Invariant of the `Cast` loop: under the closest-hit collaborator
contract (an intersector answers `true` only after writing a strictly
smaller distance, and leaves the record unchanged when it answers
`false`), the loop never increases the recorded distance, and it changes
the material only together with a strict distance decrease. -/
theorem castList_lockstep (ray : Ray) (ign : Option ℕ) :
    ∀ (objs : List Object) (i : ℕ) (b : Bool) (hi : HitInfo),
      (∀ o ∈ objs, ∀ g, ((o.intersect ray g).1 = true →
          (o.intersect ray g).2.distance < g.distance) ∧
        ((o.intersect ray g).1 = false → (o.intersect ray g).2 = g)) →
      (castList ray ign objs i b hi).2.geom.distance ≤ hi.geom.distance ∧
      ((castList ray ign objs i b hi).2.material ≠ hi.material →
        (castList ray ign objs i b hi).2.geom.distance < hi.geom.distance) := by
  intro objs
  induction objs with
  | nil =>
    intro i b hi _
    simp [castList]
  | cons o rest ih =>
    intro i b hi hc
    have ho := hc o (List.mem_cons_self o rest)
    have hrest : ∀ o ∈ rest, ∀ g, ((o.intersect ray g).1 = true →
        (o.intersect ray g).2.distance < g.distance) ∧
        ((o.intersect ray g).1 = false → (o.intersect ray g).2 = g) :=
      fun o hm => hc o (List.mem_cons_of_mem _ hm)
    simp only [castList]
    by_cases hig : some i ≠ ign
    · rw [if_pos hig]
      rcases hx : o.intersect ray hi.geom with ⟨bb, g⟩
      cases bb
      · have hg : g = hi.geom := by
          have := (ho hi.geom).2
          rw [hx] at this
          simpa using this
        subst hg
        exact ih (i + 1) b ⟨hi.geom, hi.material⟩ hrest
      · have hd : g.distance < hi.geom.distance := by
          have := (ho hi.geom).1
          rw [hx] at this
          simpa using this
        have := ih (i + 1) true ⟨g, o.material⟩ hrest
        refine ⟨le_trans this.1 (le_of_lt hd), fun _ => lt_of_le_of_lt this.1 hd⟩
    · rw [if_neg hig]
      exact ih (i + 1) b hi hrest

/-- C7: under the collaborator contract that an object's `Intersect`
returns `true` only when it wrote a strictly smaller distance into the
record (and writes nothing when it returns `false`), `Cast` never
increases the recorded distance, overwrites the record's material only in
lockstep with a strict decrease of the recorded distance, and with zero
scene objects it reports no hit and returns the record untouched. -/
theorem cast_material_lockstep (ray : Ray) (scene : Scene) (hitinfo : HitInfo)
    (ignore : Option ℕ)
    (hc : ∀ o ∈ scene.objects, ∀ g, ((o.intersect ray g).1 = true →
        (o.intersect ray g).2.distance < g.distance) ∧
      ((o.intersect ray g).1 = false → (o.intersect ray g).2 = g)) :
    (Cast ray scene hitinfo ignore).2.geom.distance ≤ hitinfo.geom.distance ∧
    ((Cast ray scene hitinfo ignore).2.material ≠ hitinfo.material →
      (Cast ray scene hitinfo ignore).2.geom.distance < hitinfo.geom.distance) ∧
    (scene.objects = [] → Cast ray scene hitinfo ignore = (false, hitinfo)) := by
  have h := castList_lockstep ray ignore scene.objects 0 false hitinfo hc
  exact ⟨h.1, h.2, fun he => by simp [Cast, he, castList]⟩

/-- Witness for C7 on the one-object scene `sceneN`, whose intersector
satisfies the contract vacuously. -/
theorem cast_material_lockstep_witness :
    (Cast rayW sceneN initialHitInfo none).2.geom.distance ≤
      initialHitInfo.geom.distance ∧
    ((Cast rayW sceneN initialHitInfo none).2.material ≠ initialHitInfo.material →
      (Cast rayW sceneN initialHitInfo none).2.geom.distance <
        initialHitInfo.geom.distance) ∧
    (sceneN.objects = [] → Cast rayW sceneN initialHitInfo none = (false, initialHitInfo)) :=
  cast_material_lockstep rayW sceneN initialHitInfo none
    (by intro o hm g; simp [sceneN, objN] at hm; simp [hm, objN])

/-- C8: a hit material with Phong exponent `≤ 0` makes the specular
indirect term of `Shade` the zero color, for every random draw `u`, every
lobe draw and every trace oracle — the specular branch is never taken, so
no specular lobe is sampled and no specular indirect ray is traced. -/
theorem zero_phong_no_specular_branch (hit : HitInfo) (V N : Vec3) (num_reb : ℤ)
    (u contriD contriS s2 t2 : ℝ) (traceFn : Ray → ℤ → Color)
    (h : hit.material.m_Phong_exp ≤ 0) :
    indirectSpecOf hit V N num_reb u contriD contriS s2 t2 traceFn = 0 := by
  rw [indirectSpecOf, if_neg]
  rintro ⟨h1, -⟩
  exact absurd h1 (not_lt.mpr h)

/-- Witness for C8 with the zero-Phong material of `initialHitInfo`. -/
theorem zero_phong_no_specular_branch_witness :
    indirectSpecOf initialHitInfo 0 0 0 0 0 0 0 0 (fun _ _ => 0) = 0 :=
  zero_phong_no_specular_branch initialHitInfo 0 0 0 0 0 0 0 0 (fun _ _ => 0)
    (by norm_num [initialHitInfo, defaultMaterial])

/-- Case analysis of one tone-mapped channel: the (integer) byte value of
`(if 255 ≤ ⌊256x⌋ then 255 else ⌊256x⌋) % 256`. -/
theorem tone_cases (x : ℝ) :
    (0 ≤ (if 255 ≤ ⌊256 * x⌋ then (255 : ℤ) else ⌊256 * x⌋) % 256 ∧
      (if 255 ≤ ⌊256 * x⌋ then (255 : ℤ) else ⌊256 * x⌋) % 256 ≤ 255) ∧
    ((255 : ℝ) / 256 ≤ x →
      (if 255 ≤ ⌊256 * x⌋ then (255 : ℤ) else ⌊256 * x⌋) % 256 = 255) ∧
    (0 ≤ x → x < (255 : ℝ) / 256 →
      (if 255 ≤ ⌊256 * x⌋ then (255 : ℤ) else ⌊256 * x⌋) % 256 = ⌊256 * x⌋) ∧
    (x < 0 →
      (if 255 ≤ ⌊256 * x⌋ then (255 : ℤ) else ⌊256 * x⌋) % 256 = ⌊256 * x⌋ % 256) := by
  refine ⟨⟨Int.emod_nonneg _ (by norm_num), ?_⟩, ?_, ?_, ?_⟩
  · have := Int.emod_lt_of_pos (if 255 ≤ ⌊256 * x⌋ then (255 : ℤ) else ⌊256 * x⌋)
      (by norm_num : (0 : ℤ) < 256)
    omega
  · intro h
    have h1 : (255 : ℤ) ≤ ⌊256 * x⌋ := Int.le_floor.mpr (by push_cast; linarith)
    rw [if_pos h1]
    norm_num
  · intro h0 h1
    have hf0 : (0 : ℤ) ≤ ⌊256 * x⌋ := Int.floor_nonneg.mpr (by positivity)
    have hf1 : ⌊256 * x⌋ < 255 := Int.floor_lt.mpr (by push_cast; linarith)
    rw [if_neg (by omega)]
    omega
  · intro h
    have hf1 : ⌊256 * x⌋ < 0 := Int.floor_lt.mpr (by push_cast; linarith)
    rw [if_neg (by omega)]

/-- C4 counterexample: the input color `(-1/2, 0, 0)` maps to the byte
value 128, not 0 — the negative channel is not treated as 0, it wraps
through the unsigned-byte cast. -/
theorem toneMap_negative_counterexample :
    (ToneMap ⟨-(1 / 2), 0, 0⟩).r = 128 ∧ (128 : ℤ) ≠ 0 := by
  constructor
  · have h : (256 : ℝ) * (-(1 / 2)) = ((-128 : ℤ) : ℝ) := by norm_num
    simp only [ToneMap, h, Int.floor_intCast]
    norm_num
  · norm_num

/-- C4 (amended): every output channel of `ToneMap` is a byte value in
`[0, 255]`; a channel at or above `255/256 ≈ 0.996` saturates to 255; a
nonnegative channel below `255/256` maps to `⌊256·x⌋` (so nonnegative
inputs are genuinely clamped to `[0, 255]`); but a negative channel is
**not** treated as 0 — it wraps modulo 256 through the unsigned-byte
cast. -/
theorem toneMap_amended (c : Color) :
    (0 ≤ (ToneMap c).r ∧ (ToneMap c).r ≤ 255 ∧ 0 ≤ (ToneMap c).g ∧
      (ToneMap c).g ≤ 255 ∧ 0 ≤ (ToneMap c).b ∧ (ToneMap c).b ≤ 255) ∧
    ((255 : ℝ) / 256 ≤ c.red → (ToneMap c).r = 255) ∧
    ((255 : ℝ) / 256 ≤ c.green → (ToneMap c).g = 255) ∧
    ((255 : ℝ) / 256 ≤ c.blue → (ToneMap c).b = 255) ∧
    (0 ≤ c.red → c.red < (255 : ℝ) / 256 → (ToneMap c).r = ⌊256 * c.red⌋) ∧
    (c.red < 0 → (ToneMap c).r = ⌊256 * c.red⌋ % 256) := by
  have hr := tone_cases c.red
  have hg := tone_cases c.green
  have hb := tone_cases c.blue
  simp only [ToneMap]
  exact ⟨⟨hr.1.1, hr.1.2, hg.1.1, hg.1.2, hb.1.1, hb.1.2⟩,
    hr.2.1, hg.2.1, hb.2.1, hr.2.2.1, hr.2.2.2⟩

/-- Witness for C4 (amended): saturation at 1, the floor value at 1/2, and
the modulo-256 wrap at -1/2. -/
theorem toneMap_amended_witness :
    (ToneMap ⟨1, 0, 0⟩).r = 255 ∧
    (ToneMap ⟨1 / 2, 0, 0⟩).r = ⌊(256 : ℝ) * (1 / 2)⌋ ∧
    (ToneMap ⟨-(1 / 2), 0, 0⟩).r = ⌊(256 : ℝ) * (-(1 / 2))⌋ % 256 :=
  ⟨(toneMap_amended ⟨1, 0, 0⟩).2.1 (by norm_num),
   (toneMap_amended ⟨1 / 2, 0, 0⟩).2.2.2.2.1 (by norm_num) (by norm_num),
   (toneMap_amended ⟨-(1 / 2), 0, 0⟩).2.2.2.2.2 (by norm_num)⟩

/-- Key geometric identity behind `SampleProjectedHemisphere`: with a unit
normal `N` and a nondegenerate half-vector construction, reflecting `-a`
about the normalized half vector between `v = (0,0,1)` and `N` and then
dotting with `N` recovers the tangent-space up-component `a · v`. -/
theorem reflect_halfvector_dot (N a : Vec3) (hNN : (N * N : ℝ) = 1)
    (hv : (⟨0, 0, 1⟩ : Vec3) + N ≠ 0) :
    (Reflection (-a) (Unit ((⟨0, 0, 1⟩ : Vec3) + N)) * N : ℝ) =
      a * (⟨0, 0, 1⟩ : Vec3) := by
  set v : Vec3 := (⟨0, 0, 1⟩ : Vec3) with hvdef
  have hq : (0 : ℝ) < (v + N) * (v + N) := dot_self_pos _ hv
  have hqe : ((v + N) * (v + N) : ℝ) = 2 + 2 * (v * N) := by
    simp only [hvdef, vec_add_def, vec_dot_def] at hNN ⊢
    linear_combination hNN
  have hlpos : (0 : ℝ) < Length (v + N) := Real.sqrt_pos.mpr hq
  have hLL : Length (v + N) * Length (v + N) = 2 + 2 * (v * N) := by
    rw [Length, Real.mul_self_sqrt (le_of_lt hq)]
    exact hqe
  have h3 : (0 : ℝ) < 2 + 2 * (v * N) := hqe ▸ hq
  have h4 : (2 : ℝ) + 2 * (v * N) ≠ 0 := ne_of_gt h3
  rw [reflection_dot, dot_comm (-a) (Unit (v + N)), unit_dot, unit_dot,
    dot_neg_left]
  have h1 : ((v + N) * (-a) : ℝ) = -((a * v : ℝ) + (a * N : ℝ)) := by
    simp only [vec_add_def, vec_neg_def, vec_dot_def]
    ring
  have h2 : ((v + N) * N : ℝ) = (v * N : ℝ) + 1 := by
    simp only [vec_add_def, vec_dot_def] at hNN ⊢
    linear_combination hNN
  rw [h1, h2, mul_assoc 2, div_mul_div_comm, hLL]
  field_simp
  ring

/-- C6: for every unit normal `N` (with the half-vector construction
nondegenerate, i.e. `N ≠ (0,0,-1)`, where the source would divide by zero)
and every pair of random draws, `SampleProjectedHemisphere` returns a
direction with nonnegative dot product with `N` and weight exactly π. -/
theorem sampleProjectedHemisphere_correct (N : Vec3) (s t : ℝ)
    (hN : Length N = 1) (hv : (⟨0, 0, 1⟩ : Vec3) + N ≠ 0) :
    (0 : ℝ) ≤ (SampleProjectedHemisphere N s t).P * N ∧
    (SampleProjectedHemisphere N s t).w = Pi := by
  have hNN : (N * N : ℝ) = 1 := by
    rw [Length] at hN
    exact Real.sqrt_eq_one.mp hN
  constructor
  · simp only [SampleProjectedHemisphere]
    rw [reflect_halfvector_dot N _ hNN hv]
    simp only [vec_dot_def]
    have hz : (0 : ℝ) ≤ (if 1 - (Real.sqrt t * Real.cos (2 * Pi * s)) ^ 2 -
        (Real.sqrt t * Real.sin (2 * Pi * s)) ^ 2 > 0 then
          Real.sqrt (1 - (Real.sqrt t * Real.cos (2 * Pi * s)) ^ 2 -
            (Real.sqrt t * Real.sin (2 * Pi * s)) ^ 2)
        else 0) := by
      split
      · exact Real.sqrt_nonneg _
      · exact le_refl 0
    nlinarith [hz]
  · rfl

/-- Witness for C6 at the unit normal `(0,0,1)` and zero draws. -/
theorem sampleProjectedHemisphere_correct_witness :
    (0 : ℝ) ≤ (SampleProjectedHemisphere ⟨0, 0, 1⟩ 0 0).P * (⟨0, 0, 1⟩ : Vec3) ∧
    (SampleProjectedHemisphere ⟨0, 0, 1⟩ 0 0).w = Pi :=
  sampleProjectedHemisphere_correct ⟨0, 0, 1⟩ 0 0
    (by norm_num [Length, vec_dot_def])
    (by
      intro hcon
      have := congrArg Vec3.z hcon
      norm_num [vec_add_def, vec_z_zero] at this)

/-- C3: evaluation of the direct-lighting loop of `Shade` on the
two-emitter scene `scene3`.  Both emitters are unoccluded; for `emitter2`
the reflected direction satisfies `R·V = 0 ≤ 0` and its diffuse term is
zero, so per the claim its accumulated contribution should be zero and the
loop should total `(1,1,1)` (the first emitter's term).  Instead the
`specular` local still holds `emitter1`'s value `(1,1,1)` when `emitter2`
is processed, and the loop returns `(2,2,2)`. -/
theorem directLoop_stale_specular :
    directLoop hit3 scene3 shadows3 V3 N3 true scene3.objects 0 0 0 0 =
      Color.mk 2 2 2 ∧ Color.mk 2 2 2 ≠ Color.mk 1 1 1 := by
  constructor
  · norm_num [directLoop, scene3, emitter1, emitter2, matL, hit3, N3, V3,
      shadows3, Cast, castList, Unit, Length, Reflection, vec_add_def,
      vec_sub_def, vec_neg_def, vec_dot_def, vec_smul_def, vec_muls_def,
      vec_div_def, color_add_def, color_mul_def, color_smul_def,
      color_muls_def, color_zero_def, color_red_zero, color_green_zero,
      color_blue_zero, Real.sqrt_one, Real.one_rpow, defaultMaterial]
  · simp only [ne_eq, Color.mk.injEq, not_and]
    norm_num

end Raytracer
